import Mathlib

/-!
Verification development for the `peaking` recording daemon.

The definitions below are a shallow embedding of the daemon's Rust source:

* `src/daemon/src/config.rs`      — buffer-length constants, `GlobalConfig`,
  `ApplicationConfig`, `effective_buffer_length`, `effective_hotkey`;
* `src/daemon/src/ring_buffer.rs` — `EncodedPacket`, codec parameter records,
  `EncodedSegment`, `RingBuffer` with `new` / `push` / `clear` / `resize`;
* `src/daemon/src/hotkey.rs`      — `parse_vk`;
* `src/daemon/src/encoder.rs`     — the IDR segment-split step of
  `SegmentEncoderInner::push_video_frame_unsafe`;
* `src/daemon/src/flush.rs`       — PTS-origin computation and the packet
  timestamp rewriting of `imp::mux_to_mp4` / `imp::write_interleaved`;
* `src/daemon/src/main.rs` + `src/daemon/src/status.rs` — the event-loop
  handlers for `ProcessStarted`, `ProcessStopped` and `FlushRequested`
  as state transformers on the daemon status.

Rust `u32`/`usize` values are modelled as `Nat` (none of the modelled
operations can overflow: all relevant values stay far below `2^32` because
capacities are clamped to at most `120`), `i64` timestamps as `Int`, strings
as `List Char`, and `VecDeque` as `List` (front of deque = head of list).
-/

-- ════════════════════════════════════════════════════════════════════════════
-- § config.rs — constants and clamping
-- ════════════════════════════════════════════════════════════════════════════

/-- `MIN_BUFFER_LENGTH_SECS` from config.rs. -/
def MIN_BUFFER_LENGTH_SECS : Nat := 5

/-- `MAX_BUFFER_LENGTH_SECS` from config.rs. -/
def MAX_BUFFER_LENGTH_SECS : Nat := 120

/-- `DEFAULT_BUFFER_LENGTH_SECS` from config.rs. -/
def DEFAULT_BUFFER_LENGTH_SECS : Nat := 15

/-- Rust's `u32::clamp(lo, hi)`: values below `lo` become `lo`, values above
`hi` become `hi`, everything else is unchanged (requires `lo ≤ hi`, which
holds at every call site modelled here). -/
def rustClamp (x lo hi : Nat) : Nat :=
  if x < lo then lo else if x > hi then hi else x

-- ════════════════════════════════════════════════════════════════════════════
-- § ring_buffer.rs — data model
-- ════════════════════════════════════════════════════════════════════════════

/-- `EncodedPacket` from ring_buffer.rs: one compressed unit with timing
metadata.  `data` is the raw byte payload (bytes as `Nat`s). -/
structure EncodedPacket where
  data : List Nat
  pts : Int
  dts : Int
  duration : Int
  is_key : Bool
  deriving DecidableEq, Repr

/-- `VideoCodecParams` from ring_buffer.rs. -/
structure VideoCodecParams where
  extradata : List Nat
  width : Nat
  height : Nat
  fps : Nat
  time_base : Int × Int
  deriving DecidableEq, Repr

/-- `AudioCodecParams` from ring_buffer.rs. -/
structure AudioCodecParams where
  extradata : List Nat
  sample_rate : Nat
  channels : Nat
  time_base : Int × Int
  deriving DecidableEq, Repr

/-- `EncodedSegment` from ring_buffer.rs: one complete 1-second window of
encoded video and audio. -/
structure EncodedSegment where
  index : Nat
  video_packets : List EncodedPacket
  audio_packets : List EncodedPacket
  video_time_base : Int × Int
  audio_time_base : Int × Int
  deriving DecidableEq, Repr

/-- `RingBuffer` from ring_buffer.rs.  The `VecDeque` of segments is modelled
as a `List` whose head is the deque front (the oldest segment). -/
structure RingBuffer where
  segments : List EncodedSegment
  capacity : Nat
  video_params : Option VideoCodecParams
  audio_params : Option AudioCodecParams
  deriving DecidableEq, Repr

namespace RingBuffer

/-- `RingBuffer::clamp_capacity`: `secs.clamp(MIN_BUFFER_LENGTH_SECS, MAX_BUFFER_LENGTH_SECS)`. -/
def clamp_capacity (secs : Nat) : Nat :=
  rustClamp secs MIN_BUFFER_LENGTH_SECS MAX_BUFFER_LENGTH_SECS

/-- `RingBuffer::new`: empty ring, clamped capacity, no codec params. -/
def new (capacity_secs : Nat) : RingBuffer :=
  { segments := []
    capacity := clamp_capacity capacity_secs
    video_params := none
    audio_params := none }

/-- `RingBuffer::push`: if `len == capacity` pop the front (oldest), then push
the new segment on the back. -/
def push (rb : RingBuffer) (segment : EncodedSegment) : RingBuffer :=
  if rb.segments.length = rb.capacity then
    { rb with segments := rb.segments.tail ++ [segment] }
  else
    { rb with segments := rb.segments ++ [segment] }

/-- `RingBuffer::len`. -/
def len (rb : RingBuffer) : Nat := rb.segments.length

/-- `RingBuffer::is_empty`. -/
def is_empty (rb : RingBuffer) : Bool := rb.segments.isEmpty

/-- `RingBuffer::clear`: drops all segments; capacity and codec params are
untouched. -/
def clear (rb : RingBuffer) : RingBuffer :=
  { rb with segments := [] }

/-- The `while self.segments.len() > self.capacity { self.segments.pop_front(); }`
loop inside `RingBuffer::resize`. -/
def evictWhile : List EncodedSegment → Nat → List EncodedSegment
  | [], _ => []
  | x :: t, cap => if (x :: t).length > cap then evictWhile t cap else x :: t

/-- `RingBuffer::resize`: clamp the new capacity, store it, then evict from the
front until `len ≤ capacity`. -/
def resize (rb : RingBuffer) (capacity_secs : Nat) : RingBuffer :=
  let new_cap := clamp_capacity capacity_secs
  { rb with capacity := new_cap, segments := evictWhile rb.segments new_cap }

/-- Folds `RingBuffer::push` over a list of segments (a sequence of push calls,
oldest first). -/
def pushAll (rb : RingBuffer) (xs : List EncodedSegment) : RingBuffer :=
  xs.foldl push rb

end RingBuffer

/-- The `make_segment` helper of the ring-buffer unit tests: a segment with a
given index and empty packet lists. -/
def mkSeg (index : Nat) : EncodedSegment :=
  { index := index
    video_packets := []
    audio_packets := []
    video_time_base := (1, 60)
    audio_time_base := (1, 48000) }

-- ════════════════════════════════════════════════════════════════════════════
-- § Ring-buffer lemmas
-- ════════════════════════════════════════════════════════════════════════════

/-- Eviction from the front of the deque is exactly dropping the first
`length - cap` elements. -/
theorem RingBuffer.evictWhile_eq_drop (l : List EncodedSegment) (cap : Nat) :
    RingBuffer.evictWhile l cap = l.drop (l.length - cap) := by
  induction l with
  | nil => simp [RingBuffer.evictWhile]
  | cons x t ih =>
    by_cases h : cap < t.length + 1
    · have hlen : t.length + 1 - cap = (t.length - cap) + 1 := by omega
      simp only [RingBuffer.evictWhile, List.length_cons, if_pos h, ih,
        hlen, List.drop_succ_cons]
    · have hc : t.length + 1 - cap = 0 := by omega
      simp only [RingBuffer.evictWhile, List.length_cons, if_neg h, hc,
        List.drop_zero]

/-- List-level form of a sequence of pushes: starting from segments `l` under
capacity `cap` with `l.length ≤ cap`, pushing `xs` leaves exactly the suffix
of `l ++ xs` that fits in `cap`. -/
theorem RingBuffer.pushAll_segments_list (xs : List EncodedSegment) :
    ∀ (l : List EncodedSegment) (cap : Nat) (vp : Option VideoCodecParams)
      (ap : Option AudioCodecParams), l.length ≤ cap → 0 < cap →
    (RingBuffer.pushAll ⟨l, cap, vp, ap⟩ xs).segments
      = (l ++ xs).drop (l.length + xs.length - cap) := by
  induction xs with
  | nil =>
    intro l cap vp ap hle _
    have h0 : l.length - cap = 0 := by omega
    simp [RingBuffer.pushAll, h0]
  | cons x t ih =>
    intro l cap vp ap hle hpos
    by_cases h : l.length = cap
    · -- full: pop front then append
      have step : RingBuffer.pushAll ⟨l, cap, vp, ap⟩ (x :: t)
          = RingBuffer.pushAll ⟨l.tail ++ [x], cap, vp, ap⟩ t := by
        simp [RingBuffer.pushAll, RingBuffer.push, h]
      cases l with
      | nil =>
        exfalso
        simp at h
        omega
      | cons y ys =>
        have hyc : ys.length + 1 = cap := by simpa using h
        have hlen' : (ys ++ [x]).length ≤ cap := by simp; omega
        have ihx := ih (ys ++ [x]) cap vp ap hlen' hpos
        rw [step, List.tail_cons, ihx]
        have hidx : (ys ++ [x]).length + t.length - cap
            = (y :: ys).length + (x :: t).length - cap - 1 := by
          simp
          omega
        have hidx2 : (y :: ys).length + (x :: t).length - cap
            = ((y :: ys).length + (x :: t).length - cap - 1) + 1 := by
          simp
          omega
        rw [hidx, hidx2]
        have hlist : (y :: ys) ++ x :: t = y :: (ys ++ [x] ++ t) := by simp
        rw [hlist, List.drop_succ_cons]
        congr 1
    · -- not full: append on the back
      have hlt : l.length < cap := lt_of_le_of_ne hle h
      have step : RingBuffer.pushAll ⟨l, cap, vp, ap⟩ (x :: t)
          = RingBuffer.pushAll ⟨l ++ [x], cap, vp, ap⟩ t := by
        simp [RingBuffer.pushAll, RingBuffer.push, h]
      have hlen' : (l ++ [x]).length ≤ cap := by simp; omega
      have ihx := ih (l ++ [x]) cap vp ap hlen' hpos
      rw [step, ihx]
      have hidx : (l ++ [x]).length + t.length - cap
          = l.length + (x :: t).length - cap := by
        simp only [List.length_append, List.length_cons, List.length_nil]
        omega
      have hlist : l ++ [x] ++ t = l ++ x :: t := by simp
      rw [hidx, hlist]

/-- `pushAll` on an arbitrary ring state. -/
theorem RingBuffer.pushAll_segments (xs : List EncodedSegment) (rb : RingBuffer)
    (hle : rb.segments.length ≤ rb.capacity) (hpos : 0 < rb.capacity) :
    (rb.pushAll xs).segments
      = (rb.segments ++ xs).drop (rb.segments.length + xs.length - rb.capacity) := by
  cases rb with
  | mk l cap vp ap => exact RingBuffer.pushAll_segments_list xs l cap vp ap hle hpos

/-- Length form of `pushAll_segments`. -/
theorem RingBuffer.pushAll_length (xs : List EncodedSegment) (rb : RingBuffer)
    (hle : rb.segments.length ≤ rb.capacity) (hpos : 0 < rb.capacity) :
    (rb.pushAll xs).segments.length
      = min (rb.segments.length + xs.length) rb.capacity := by
  rw [RingBuffer.pushAll_segments xs rb hle hpos]
  simp
  omega

-- ════════════════════════════════════════════════════════════════════════════
-- § Claim C1 — ring length law and capacity clamp
-- ════════════════════════════════════════════════════════════════════════════

/-- Claim C1, counterexample: the claimed formula
`len(ring) = min(number_of_pushes_since_last_clear_or_resize_down, capacity)`
fails right after a downward resize that kept segments.  `new(10)`, ten
pushes, `resize(7)` (a downward resize, so the push count restarts at 0),
then one more push: the ring holds 7 segments, but the formula demands
`min(1, 7) = 1`. -/
theorem C1_ring_capacity_counterexample :
    ((((RingBuffer.new 10).pushAll ((List.range 10).map mkSeg)).resize 7).push
        (mkSeg 10)).len = 7
    ∧ min 1 ((((RingBuffer.new 10).pushAll ((List.range 10).map mkSeg)).resize 7).push
        (mkSeg 10)).capacity = 1 := by
  constructor
  · decide
  · decide

/-- Claim C1 (amended): counting pushes since the last clear (or since
construction) — not since a downward resize — the length law holds:
from an empty ring, `len` after the pushes is `min(number of pushes,
capacity)`; more generally, from any in-capacity state with `L` segments,
`k` pushes yield `len = min(L + k, capacity)` (after a downward resize `L`
is the post-resize fill level, not 0).  The `new` clamp is as claimed:
capacities below `C_MIN = 5` become 5, above `C_MAX = 120` become 120, and
in-range values are kept. -/
theorem C1_ring_capacity_amended :
    (∀ (rb : RingBuffer) (xs : List EncodedSegment),
        rb.segments = [] → 0 < rb.capacity →
        (rb.pushAll xs).len = min xs.length rb.capacity)
    ∧ (∀ (rb : RingBuffer) (xs : List EncodedSegment),
        rb.segments.length ≤ rb.capacity → 0 < rb.capacity →
        (rb.pushAll xs).len = min (rb.segments.length + xs.length) rb.capacity)
    ∧ (∀ c : Nat, c < MIN_BUFFER_LENGTH_SECS →
        (RingBuffer.new c).capacity = MIN_BUFFER_LENGTH_SECS)
    ∧ (∀ c : Nat, c > MAX_BUFFER_LENGTH_SECS →
        (RingBuffer.new c).capacity = MAX_BUFFER_LENGTH_SECS)
    ∧ (∀ c : Nat, MIN_BUFFER_LENGTH_SECS ≤ c → c ≤ MAX_BUFFER_LENGTH_SECS →
        (RingBuffer.new c).capacity = c) := by
  refine ⟨?_, ?_, ?_, ?_, ?_⟩
  · intro rb xs hemp hpos
    have hle : rb.segments.length ≤ rb.capacity := by rw [hemp]; simp
    have := RingBuffer.pushAll_length xs rb hle hpos
    rw [RingBuffer.len, this, hemp]
    simp
  · intro rb xs hle hpos
    exact RingBuffer.pushAll_length xs rb hle hpos
  · intro c hc
    simp [RingBuffer.new, RingBuffer.clamp_capacity, rustClamp, hc]
  · intro c hc
    have : ¬ c < MIN_BUFFER_LENGTH_SECS := by
      simp [MIN_BUFFER_LENGTH_SECS, MAX_BUFFER_LENGTH_SECS] at *
      omega
    simp [RingBuffer.new, RingBuffer.clamp_capacity, rustClamp, this, hc]
  · intro c h1 h2
    have h1' : ¬ c < MIN_BUFFER_LENGTH_SECS := by omega
    have h2' : ¬ c > MAX_BUFFER_LENGTH_SECS := by omega
    simp [RingBuffer.new, RingBuffer.clamp_capacity, rustClamp, h1', h2']

/-- Claim C1 witness: the amended length law and clamp evaluated at concrete
inputs (12 pushes into a fresh capacity-10 ring give length 10; `new 0`
clamps to 5, `new 200` to 120, `new 30` keeps 30). -/
theorem C1_ring_capacity_witness :
    ((RingBuffer.new 10).pushAll ((List.range 12).map mkSeg)).len = min 12 10
    ∧ (RingBuffer.new 0).capacity = 5
    ∧ (RingBuffer.new 200).capacity = 120
    ∧ (RingBuffer.new 30).capacity = 30 := by
  refine ⟨?_, ?_, ?_, ?_⟩
  · have h := C1_ring_capacity_amended.1 (RingBuffer.new 10)
      ((List.range 12).map mkSeg) (by decide) (by decide)
    simpa using h
  · exact C1_ring_capacity_amended.2.2.1 0 (by decide)
  · exact C1_ring_capacity_amended.2.2.2.1 200 (by decide)
  · exact C1_ring_capacity_amended.2.2.2.2 30 (by decide) (by decide)

-- ════════════════════════════════════════════════════════════════════════════
-- § Claim C2 — FIFO order, eviction, resize retention, scenario S2
-- ════════════════════════════════════════════════════════════════════════════

/-- Claim C2: pushing `s₀ … s_{N-1}` into a fresh ring of (in-range) capacity
`K` leaves exactly the last `min(N, K)` segments in push order — all of them
when `K ≥ N`, and `s_{N-K} … s_{N-1}` when `N > K` (`drop (N - K)` covers
both cases); `resize` retains exactly the newest `min(len, clamped capacity)`
segments in order; and scenario S2 holds: `new(10)`, pushing indices 0–9,
then `resize(7)` leaves the segments with indices `[3,4,5,6,7,8,9]`. -/
theorem C2_fifo_order :
    (∀ (xs : List EncodedSegment) (K : Nat),
        MIN_BUFFER_LENGTH_SECS ≤ K → K ≤ MAX_BUFFER_LENGTH_SECS →
        ((RingBuffer.new K).pushAll xs).segments = xs.drop (xs.length - K))
    ∧ (∀ (rb : RingBuffer) (n : Nat),
        (rb.resize n).segments
          = rb.segments.drop (rb.segments.length - RingBuffer.clamp_capacity n))
    ∧ ((((RingBuffer.new 10).pushAll ((List.range 10).map mkSeg)).resize 7).segments.map
        EncodedSegment.index = [3, 4, 5, 6, 7, 8, 9]) := by
  refine ⟨?_, ?_, ?_⟩
  · intro xs K h1 h2
    have h1' : ¬ K < MIN_BUFFER_LENGTH_SECS := by omega
    have h2' : ¬ K > MAX_BUFFER_LENGTH_SECS := by omega
    have hcap : (RingBuffer.new K).capacity = K := by
      simp [RingBuffer.new, RingBuffer.clamp_capacity, rustClamp, h1', h2']
    have hemp : (RingBuffer.new K).segments = [] := rfl
    have hm : MIN_BUFFER_LENGTH_SECS = 5 := rfl
    have := RingBuffer.pushAll_segments xs (RingBuffer.new K)
      (by rw [hemp]; simp) (by rw [hcap]; omega)
    rw [this, hemp, hcap]
    simp
  · intro rb n
    rw [RingBuffer.resize]
    exact RingBuffer.evictWhile_eq_drop rb.segments (RingBuffer.clamp_capacity n)
  · decide

/-- Claim C2 witness: the FIFO law at `K = 5` with 8 distinct segments
(snapshot is indices 3–7) and the resize-retention law on a concrete ring. -/
theorem C2_fifo_order_witness :
    ((RingBuffer.new 5).pushAll ((List.range 8).map mkSeg)).segments
      = ((List.range 8).map mkSeg).drop 3
    ∧ (((RingBuffer.new 10).pushAll ((List.range 4).map mkSeg)).resize 7).segments
      = (((RingBuffer.new 10).pushAll ((List.range 4).map mkSeg)).segments).drop 0 := by
  constructor
  · have h := C2_fifo_order.1 ((List.range 8).map mkSeg) 5 (by decide) (by decide)
    simpa using h
  · have h := C2_fifo_order.2.1 ((RingBuffer.new 10).pushAll ((List.range 4).map mkSeg)) 7
    have h4 : (((RingBuffer.new 10).pushAll ((List.range 4).map mkSeg)).segments).length = 4 := by
      decide
    rw [h, h4]
    rfl

-- ════════════════════════════════════════════════════════════════════════════
-- § Claim C9 — frame conditions of clear and resize
-- ════════════════════════════════════════════════════════════════════════════

/-- Claim C9: `clear` removes all segments but leaves `video_params` and
`audio_params` unchanged; `resize` changes only the capacity (to the clamped
value) and the segment list by evicting oldest — the surviving segments are a
suffix of the originals (never adds segments, so the length cannot grow) and
the codec params are untouched. -/
theorem C9_clear_resize_frame :
    (∀ rb : RingBuffer,
        rb.clear.segments = []
        ∧ rb.clear.video_params = rb.video_params
        ∧ rb.clear.audio_params = rb.audio_params)
    ∧ (∀ (rb : RingBuffer) (n : Nat),
        (rb.resize n).video_params = rb.video_params
        ∧ (rb.resize n).audio_params = rb.audio_params
        ∧ (rb.resize n).segments.length ≤ rb.segments.length
        ∧ List.IsSuffix (rb.resize n).segments rb.segments
        ∧ (rb.resize n).capacity = RingBuffer.clamp_capacity n) := by
  constructor
  · intro rb
    exact ⟨rfl, rfl, rfl⟩
  · intro rb n
    have hseg : (rb.resize n).segments
        = rb.segments.drop (rb.segments.length - RingBuffer.clamp_capacity n) := by
      rw [RingBuffer.resize]
      exact RingBuffer.evictWhile_eq_drop rb.segments (RingBuffer.clamp_capacity n)
    refine ⟨rfl, rfl, ?_, ?_, rfl⟩
    · rw [hseg]
      simp
    · rw [hseg]
      exact List.drop_suffix _ _

-- ════════════════════════════════════════════════════════════════════════════
-- § config.rs — GlobalConfig / ApplicationConfig and effective options
-- ════════════════════════════════════════════════════════════════════════════

/-- `GlobalConfig` from config.rs (strings as `List Char`). -/
structure GlobalConfig where
  buffer_length_secs : Nat
  hotkey : List Char
  clip_output_dir : List Char
  deriving DecidableEq, Repr

/-- `ApplicationConfig` from config.rs. -/
structure ApplicationConfig where
  display_name : List Char
  executable_name : List Char
  buffer_length_secs : Option Nat
  hotkey : Option (List Char)
  deriving DecidableEq, Repr

namespace ApplicationConfig

/-- `ApplicationConfig::effective_buffer_length`: the app override (when
present) else the global value, then clamped to `[MIN, MAX]`. -/
def effective_buffer_length (app : ApplicationConfig) (global : GlobalConfig) : Nat :=
  rustClamp (app.buffer_length_secs.getD global.buffer_length_secs)
    MIN_BUFFER_LENGTH_SECS MAX_BUFFER_LENGTH_SECS

/-- `ApplicationConfig::effective_hotkey`: the app override (when present)
else the global hotkey. -/
def effective_hotkey (app : ApplicationConfig) (global : GlobalConfig) : List Char :=
  app.hotkey.getD global.hotkey

end ApplicationConfig

-- ════════════════════════════════════════════════════════════════════════════
-- § Claim C4 — effective option computation
-- ════════════════════════════════════════════════════════════════════════════

/-- Claim C4: for every (override, global) pair the effective buffer length
lies in `[C_MIN, C_MAX] = [5, 120]`; the override takes precedence over the
global value before clamping; scenario S4 holds — global 20 with override
`Some(999)` gives effective buffer 120 (= C_MAX), and an app hotkey override
`"F9"` is the effective hotkey. -/
theorem C4_effective_config :
    (∀ (app : ApplicationConfig) (g : GlobalConfig),
        MIN_BUFFER_LENGTH_SECS ≤ app.effective_buffer_length g
        ∧ app.effective_buffer_length g ≤ MAX_BUFFER_LENGTH_SECS)
    ∧ (∀ (app : ApplicationConfig) (g : GlobalConfig) (v : Nat),
        app.buffer_length_secs = some v →
        app.effective_buffer_length g
          = rustClamp v MIN_BUFFER_LENGTH_SECS MAX_BUFFER_LENGTH_SECS)
    ∧ ((ApplicationConfig.mk "Test Game".toList "game.exe".toList
          (some 999) (some "F9".toList)).effective_buffer_length
        (GlobalConfig.mk 20 "F8".toList []) = 120)
    ∧ ((ApplicationConfig.mk "Test Game".toList "game.exe".toList
          (some 999) (some "F9".toList)).effective_hotkey
        (GlobalConfig.mk 20 "F8".toList []) = "F9".toList) := by
  refine ⟨?_, ?_, ?_, ?_⟩
  · intro app g
    simp only [ApplicationConfig.effective_buffer_length, rustClamp,
      MIN_BUFFER_LENGTH_SECS, MAX_BUFFER_LENGTH_SECS]
    split_ifs <;> omega
  · intro app g v hv
    simp [ApplicationConfig.effective_buffer_length, hv]
  · decide
  · decide

/-- Claim C4 witness: the bounds and precedence clauses applied at a concrete
override/global pair (override 2 clamps up to 5 regardless of global 20). -/
theorem C4_effective_config_witness :
    MIN_BUFFER_LENGTH_SECS
      ≤ (ApplicationConfig.mk [] [] (some 2) none).effective_buffer_length
          (GlobalConfig.mk 20 [] [])
    ∧ (ApplicationConfig.mk [] [] (some 2) none).effective_buffer_length
          (GlobalConfig.mk 20 [] [])
      = rustClamp 2 MIN_BUFFER_LENGTH_SECS MAX_BUFFER_LENGTH_SECS :=
  ⟨(C4_effective_config.1 (ApplicationConfig.mk [] [] (some 2) none)
      (GlobalConfig.mk 20 [] [])).1,
   C4_effective_config.2.1 (ApplicationConfig.mk [] [] (some 2) none)
      (GlobalConfig.mk 20 [] []) 2 rfl⟩

-- ════════════════════════════════════════════════════════════════════════════
-- § hotkey.rs — parse_vk
-- ════════════════════════════════════════════════════════════════════════════

/-- Rust `char::to_uppercase` as used by `str::to_uppercase`, modelled on the
characters this development evaluates it on: ASCII `'a'..='z'` (code points
97–122) map to their uppercase (code point − 32, the only ASCII characters
with an uppercase mapping), and U+017F LATIN SMALL LETTER LONG S (`'ſ'`,
code point 383) maps to `'S'` (its Unicode uppercase mapping is U+0053).
Other characters are left unchanged; the theorems below quantify over ASCII
strings wherever that restriction matters, so no other Unicode uppercase
mapping is relied upon. -/
def rustCharToUpper (c : Char) : List Char :=
  if 97 ≤ c.toNat ∧ c.toNat ≤ 122 then [Char.ofNat (c.toNat - 32)]
  else if c.toNat = 383 then ['S']
  else [c]

/-- Rust `str::to_uppercase`: concatenation of the per-character uppercase
mappings. -/
def rustToUppercase (s : List Char) : List Char :=
  s.flatMap rustCharToUpper

/-- Rust `str::len` — the UTF-8 byte length of a string. -/
def rustByteLen (s : List Char) : Nat :=
  s.foldl (fun n c => n + c.utf8Size) 0

/-- Rust `char::is_ascii_alphanumeric`: `'0'..='9'`, `'A'..='Z'` or
`'a'..='z'`. -/
def is_ascii_alphanumeric (c : Char) : Bool :=
  (decide (48 ≤ c.toNat) && decide (c.toNat ≤ 57))
  || (decide (65 ≤ c.toNat) && decide (c.toNat ≤ 90))
  || (decide (97 ≤ c.toNat) && decide (c.toNat ≤ 122))

/-- Rust `char::to_ascii_uppercase`: ASCII lowercase letters map to their
uppercase, everything else is unchanged. -/
def to_ascii_uppercase (c : Char) : Char :=
  if 97 ≤ c.toNat ∧ c.toNat ≤ 122 then Char.ofNat (c.toNat - 32) else c

/-- `parse_vk` from hotkey.rs: uppercase the name, match the twelve function
keys, otherwise accept a single-byte ASCII alphanumeric, otherwise `None`.
The `s if s.len() == 1` guard of the Rust match tests the UTF-8 byte length
of the uppercased string. -/
def parse_vk (name : List Char) : Option Nat :=
  let s := rustToUppercase name
  if s = ['F', '1'] then some 0x70
  else if s = ['F', '2'] then some 0x71
  else if s = ['F', '3'] then some 0x72
  else if s = ['F', '4'] then some 0x73
  else if s = ['F', '5'] then some 0x74
  else if s = ['F', '6'] then some 0x75
  else if s = ['F', '7'] then some 0x76
  else if s = ['F', '8'] then some 0x77
  else if s = ['F', '9'] then some 0x78
  else if s = ['F', '1', '0'] then some 0x79
  else if s = ['F', '1', '1'] then some 0x7A
  else if s = ['F', '1', '2'] then some 0x7B
  else if rustByteLen s = 1 then
    match s.head? with
    | some c => if is_ascii_alphanumeric c then some (to_ascii_uppercase c).toNat else none
    | none => none
  else none

/-- The twelve function-key names (already uppercased). -/
def fkeyNames : List (List Char) :=
  [['F', '1'], ['F', '2'], ['F', '3'], ['F', '4'], ['F', '5'], ['F', '6'],
   ['F', '7'], ['F', '8'], ['F', '9'], ['F', '1', '0'], ['F', '1', '1'],
   ['F', '1', '2']]

-- ════════════════════════════════════════════════════════════════════════════
-- § parse_vk lemmas
-- ════════════════════════════════════════════════════════════════════════════

/-- Every character an ASCII code point ≤ 127 occupies one UTF-8 byte. -/
theorem Char.utf8Size_eq_one_of_ascii (c : Char) (h : c.toNat ≤ 127) :
    c.utf8Size = 1 := by
  have hv : c.val ≤ 0x7F := by
    change c.val.toNat ≤ 127 at h
    rw [UInt32.le_def]
    change c.val.toBitVec.toNat ≤ (127 : BitVec 32).toNat
    simpa using h
  simp [Char.utf8Size, hv]

/-- The uppercase map never changes the character count. -/
theorem rustCharToUpper_length (c : Char) : (rustCharToUpper c).length = 1 := by
  rw [rustCharToUpper]
  split_ifs <;> rfl

/-- `rustToUppercase` preserves the character count. -/
theorem rustToUppercase_length (s : List Char) :
    (rustToUppercase s).length = s.length := by
  induction s with
  | nil => rfl
  | cons c t ih =>
    rw [rustToUppercase, List.flatMap_cons, List.length_append]
    rw [rustToUppercase] at ih
    rw [ih, rustCharToUpper_length, List.length_cons]
    omega

/-- A character that is not an ASCII lowercase letter and not U+017F is fixed
by the uppercase map. -/
theorem rustCharToUpper_fixed (c : Char)
    (h1 : ¬(97 ≤ c.toNat ∧ c.toNat ≤ 122)) (h2 : c.toNat ≠ 383) :
    rustCharToUpper c = [c] := by
  rw [rustCharToUpper, if_neg h1, if_neg h2]

/-- Accumulator form of `rustByteLen`. -/
theorem rustByteLen_foldl (s : List Char) (n : Nat) :
    s.foldl (fun n c => n + c.utf8Size) n = n + rustByteLen s := by
  induction s generalizing n with
  | nil => simp [rustByteLen]
  | cons c t ih =>
    rw [rustByteLen, List.foldl_cons, List.foldl_cons, ih, ih (0 + c.utf8Size)]
    omega

/-- On strings of ASCII characters, the UTF-8 byte length is the character
count. -/
theorem rustByteLen_eq_length_of_ascii (s : List Char)
    (h : ∀ c ∈ s, c.toNat ≤ 127) : rustByteLen s = s.length := by
  induction s with
  | nil => rfl
  | cons c t ih =>
    rw [rustByteLen, List.foldl_cons, rustByteLen_foldl]
    rw [ih (fun x hx => h x (List.mem_cons_of_mem c hx))]
    rw [Char.utf8Size_eq_one_of_ascii c (h c (List.mem_cons_self c t))]
    rw [List.length_cons]
    omega

/-- `parse_vk` rejects every ASCII string that is neither (case-insensitively)
one of the twelve function-key names nor a single ASCII alphanumeric
character. -/
theorem parse_vk_none_of_unrecognized (cs : List Char)
    (hascii : ∀ c ∈ cs, c.toNat ≤ 127)
    (hnf : rustToUppercase cs ∉ fkeyNames)
    (hsingle : ∀ c, cs = [c] → is_ascii_alphanumeric c = false) :
    parse_vk cs = none := by
  simp only [fkeyNames, List.mem_cons, List.not_mem_nil, or_false, not_or] at hnf
  obtain ⟨n1, n2, n3, n4, n5, n6, n7, n8, n9, n10, n11, n12⟩ := hnf
  rw [parse_vk]
  simp only [if_neg n1, if_neg n2, if_neg n3, if_neg n4, if_neg n5, if_neg n6,
    if_neg n7, if_neg n8, if_neg n9, if_neg n10, if_neg n11, if_neg n12]
  match hcs : cs with
  | [] => rfl
  | [c] =>
    have hal : is_ascii_alphanumeric c = false := hsingle c rfl
    have hc127 : c.toNat ≤ 127 := hascii c (by simp)
    have hnl : ¬(97 ≤ c.toNat ∧ c.toNat ≤ 122) := by
      intro hx
      rw [is_ascii_alphanumeric] at hal
      simp at hal
      omega
    have hfix : rustCharToUpper c = [c] :=
      rustCharToUpper_fixed c hnl (by omega)
    have hs : rustToUppercase [c] = [c] := by
      rw [rustToUppercase, List.flatMap_cons, List.flatMap_nil, hfix]
      rfl
    rw [hs]
    have hb : rustByteLen [c] = 1 := by
      rw [rustByteLen_eq_length_of_ascii [c] (by simpa using hc127)]
      rfl
    rw [if_pos hb]
    simp [hal]
  | c1 :: c2 :: t =>
    have hb : rustByteLen (rustToUppercase (c1 :: c2 :: t))
        = (c1 :: c2 :: t).length := by
      rw [rustByteLen_eq_length_of_ascii, rustToUppercase_length]
      intro c hc
      rw [rustToUppercase] at hc
      obtain ⟨d, hd, hmem⟩ := List.mem_flatMap.mp hc
      have hd127 : d.toNat ≤ 127 := hascii d hd
      rw [rustCharToUpper] at hmem
      by_cases h97 : 97 ≤ d.toNat ∧ d.toNat ≤ 122
      · rw [if_pos h97] at hmem
        simp at hmem
        subst hmem
        have : (Char.ofNat (d.toNat - 32)).toNat = d.toNat - 32 := by
          rw [Char.ofNat, dif_pos (Or.inl (by omega : d.toNat - 32 < 0xd800))]
          rfl
        omega
      · rw [if_neg h97, if_neg (by omega)] at hmem
        simp at hmem
        subst hmem
        exact hd127
    rw [if_neg (by rw [hb]; simp)]

-- ════════════════════════════════════════════════════════════════════════════
-- § Claim C3 — parse_vk
-- ════════════════════════════════════════════════════════════════════════════

/-- Claim C3, counterexample: the claim's final clause — every input other
than `F1`–`F12`, ASCII letters and ASCII digits yields `None` — fails on the
code for some non-ASCII inputs.  The single character U+017F LATIN SMALL
LETTER LONG S (`'ſ'`, code point 383) is none of those (it is non-ASCII and
not alphanumeric), yet Rust's `to_uppercase` maps it to `"S"` (Unicode
uppercase mapping U+017F → U+0053), after which `parse_vk` accepts it as the
`S` key and returns `Some(0x53)`. -/
theorem C3_parse_vk_counterexample :
    parse_vk [Char.ofNat 383] = some 0x53
    ∧ fkeyNames.all (fun t => [Char.ofNat 383] ≠ t) = true
    ∧ is_ascii_alphanumeric (Char.ofNat 383) = false
    ∧ 127 < (Char.ofNat 383).toNat := by
  refine ⟨by decide, by decide, by decide, by decide⟩

/-- Claim C3 (amended): `parse_vk` is a pure total function; every name
`F1`–`F12` in either letter case maps to the contiguous VK codes
`0x70`–`0x7B`; every single ASCII letter in either case maps to its
uppercase ASCII value `0x41`–`0x5A`; every single ASCII digit maps to its
ASCII value `0x30`–`0x39`; and every other ASCII string (including the
empty string, `F0`, `F13` and multi-character names such as `Enter`) maps
to the disabled result `None`.  (The all-strings version of the last clause
is false: a non-ASCII string whose Unicode uppercase form is a single ASCII
alphanumeric, such as `"ſ"`, is accepted — see the counterexample.) -/
theorem C3_parse_vk_amended :
    (∀ n : Nat, 1 ≤ n → n ≤ 12 → ∀ c : Char, c = 'F' ∨ c = 'f' →
        parse_vk (c :: Nat.toDigits 10 n) = some (0x6F + n))
    ∧ (∀ n : Nat, 65 ≤ n → n ≤ 90 →
        parse_vk [Char.ofNat n] = some n ∧ parse_vk [Char.ofNat (n + 32)] = some n)
    ∧ (∀ n : Nat, 48 ≤ n → n ≤ 57 → parse_vk [Char.ofNat n] = some n)
    ∧ (∀ cs : List Char, (∀ c ∈ cs, c.toNat ≤ 127) →
        rustToUppercase cs ∉ fkeyNames →
        (∀ c, cs = [c] → is_ascii_alphanumeric c = false) →
        parse_vk cs = none) := by
  refine ⟨?_, ?_, ?_, ?_⟩
  · intro n h1 h2 c hc
    interval_cases n <;> rcases hc with rfl | rfl <;> decide
  · intro n h1 h2
    interval_cases n <;> exact ⟨by decide, by decide⟩
  · intro n h1 h2
    interval_cases n <;> decide
  · exact parse_vk_none_of_unrecognized

/-- Claim C3 witness: the amended theorem applied at the scenario-S3 inputs
`F8`, `f8`, `A`, `a`, `""`, `F13` and `Enter`. -/
theorem C3_parse_vk_witness :
    parse_vk "F8".toList = some 0x77
    ∧ parse_vk "f8".toList = some 0x77
    ∧ parse_vk "A".toList = some 0x41
    ∧ parse_vk "a".toList = some 0x41
    ∧ parse_vk "".toList = none
    ∧ parse_vk "F13".toList = none
    ∧ parse_vk "Enter".toList = none := by
  refine ⟨?_, ?_, ?_, ?_, ?_, ?_, ?_⟩
  · have h := C3_parse_vk_amended.1 8 (by decide) (by decide) 'F' (Or.inl rfl)
    have e : ('F' :: Nat.toDigits 10 8) = "F8".toList := by decide
    rw [e] at h
    exact h.trans (by decide)
  · have h := C3_parse_vk_amended.1 8 (by decide) (by decide) 'f' (Or.inr rfl)
    have e : ('f' :: Nat.toDigits 10 8) = "f8".toList := by decide
    rw [e] at h
    exact h.trans (by decide)
  · have h := (C3_parse_vk_amended.2.1 65 (by decide) (by decide)).1
    have e : [Char.ofNat 65] = "A".toList := by decide
    rw [e] at h
    exact h
  · have h := (C3_parse_vk_amended.2.1 65 (by decide) (by decide)).2
    have e : [Char.ofNat (65 + 32)] = "a".toList := by decide
    rw [e] at h
    exact h
  · exact C3_parse_vk_amended.2.2.2 [] (by decide) (by decide)
      (fun c h => by simp at h)
  · exact C3_parse_vk_amended.2.2.2 "F13".toList (by decide) (by decide)
      (fun c h => by simp at h)
  · exact C3_parse_vk_amended.2.2.2 "Enter".toList (by decide) (by decide)
      (fun c h => by simp at h)

-- ════════════════════════════════════════════════════════════════════════════
-- § encoder.rs — the IDR segment-split step
-- ════════════════════════════════════════════════════════════════════════════

/-- The mutable packet accumulators of `SegmentEncoderInner` that the
segment-split step reads and writes: `current_video_packets` and
`current_audio_packets`. -/
structure EncoderAccum where
  current_video_packets : List EncodedPacket
  current_audio_packets : List EncodedPacket
  deriving DecidableEq, Repr

/-- The segment-split step at the end of
`SegmentEncoderInner::push_video_frame_unsafe`: `drained` is the list of
packets newly produced by `drain_packets` on this call (appended onto
`current_video_packets`); `prev_len` is the accumulator length before the
drain.  If the packet at position `prev_len` exists, is a key frame, and
`prev_len > 0`, the accumulated prefix is split off as a completed segment
(video = the prior packets, audio = the audio accumulator), the drained
packets become the next video accumulator and the audio accumulator resets;
otherwise no segment is produced.  The completed segment is returned as its
`(video_packets, audio_packets)` pair. -/
def push_video_drain (st : EncoderAccum) (drained : List EncodedPacket) :
    Option (List EncodedPacket × List EncodedPacket) × EncoderAccum :=
  let prev_len := st.current_video_packets.length
  let packets := st.current_video_packets ++ drained
  match packets[prev_len]? with
  | some first_new =>
    if first_new.is_key = true ∧ 0 < prev_len then
      (some (packets.take prev_len, st.current_audio_packets),
       { current_video_packets := packets.drop prev_len,
         current_audio_packets := [] })
    else
      (none, { st with current_video_packets := packets })
  | none =>
    (none, { st with current_video_packets := packets })

/-- The packet the split step inspects is the head of the newly drained
region. -/
theorem push_video_drain_get (st : EncoderAccum) (drained : List EncodedPacket) :
    (st.current_video_packets ++ drained)[st.current_video_packets.length]?
      = drained.head? := by
  rw [List.getElem?_append_right (le_refl _)]
  simp
  exact (List.head?_eq_getElem? drained).symm

-- ════════════════════════════════════════════════════════════════════════════
-- § Claim C5 — push_video_frame boundary condition
-- ════════════════════════════════════════════════════════════════════════════

/-- Claim C5: the split step returns `Some(segment)` iff the first packet
newly drained on this call is a key frame and the previously accumulated
video list is non-empty; in that case the segment's video packets are
exactly the previously accumulated packets, its audio packets are exactly
the accumulated audio packets, the drained packets (beginning with the new
key packet) become the next video accumulator, and the audio accumulator
resets to empty; otherwise the result is `None` and the drained packets are
simply appended. -/
theorem C5_push_video_boundary (st : EncoderAccum) (drained : List EncodedPacket) :
    ((push_video_drain st drained).1.isSome = true ↔
      (∃ p ps, drained = p :: ps ∧ p.is_key = true
        ∧ st.current_video_packets ≠ []))
    ∧ (∀ seg, (push_video_drain st drained).1 = some seg →
        seg.1 = st.current_video_packets
        ∧ seg.2 = st.current_audio_packets
        ∧ (push_video_drain st drained).2.current_video_packets = drained
        ∧ (push_video_drain st drained).2.current_video_packets.head? = drained.head?
        ∧ (push_video_drain st drained).2.current_audio_packets = [])
    ∧ ((push_video_drain st drained).1 = none →
        (push_video_drain st drained).2.current_video_packets
          = st.current_video_packets ++ drained
        ∧ (push_video_drain st drained).2.current_audio_packets
          = st.current_audio_packets) := by
  have hget := push_video_drain_get st drained
  rw [push_video_drain]
  simp only [hget]
  cases drained with
  | nil =>
    simp only [List.head?_nil]
    refine ⟨by simp, by simp, by simp⟩
  | cons p ps =>
    simp only [List.head?_cons]
    by_cases hk : p.is_key = true ∧ 0 < st.current_video_packets.length
    · rw [if_pos hk]
      refine ⟨?_, ?_, ?_⟩
      · simp only [Option.isSome_some, true_iff]
        exact ⟨p, ps, rfl, hk.1, by
          intro hnil
          rw [hnil] at hk
          simp at hk⟩
      · intro seg hseg
        simp only [Option.some.injEq] at hseg
        subst hseg
        refine ⟨List.take_left _ _, rfl, List.drop_left _ _, ?_, rfl⟩
        simp
      · intro hnone
        simp at hnone
    · rw [if_neg hk]
      refine ⟨?_, ?_, ?_⟩
      · constructor
        · intro hfalse
          simp at hfalse
        · rintro ⟨q, qs, hq, hkey, hne⟩
          exfalso
          injection hq with h1 h2
          subst h1
          subst h2
          apply hk
          constructor
          · exact hkey
          · cases hv : st.current_video_packets with
            | nil => exact absurd hv hne
            | cons a as => simp [hv]
      · intro seg hseg
        simp at hseg
      · intro _
        exact ⟨rfl, rfl⟩

/-- Claim C5 witness: the boundary characterisation applied at a concrete
state — a one-packet video accumulator, one audio packet, and a drained key
packet produce a completed segment consisting of the prior packets. -/
theorem C5_push_video_boundary_witness :
    (push_video_drain
      (EncoderAccum.mk [EncodedPacket.mk [1] 0 0 1 true] [EncodedPacket.mk [2] 0 0 1 true])
      [EncodedPacket.mk [3] 1 1 1 true]).1
      = some ([EncodedPacket.mk [1] 0 0 1 true], [EncodedPacket.mk [2] 0 0 1 true]) := by
  have h := (C5_push_video_boundary
    (EncoderAccum.mk [EncodedPacket.mk [1] 0 0 1 true] [EncodedPacket.mk [2] 0 0 1 true])
    [EncodedPacket.mk [3] 1 1 1 true]).1
  have hsome : (push_video_drain
      (EncoderAccum.mk [EncodedPacket.mk [1] 0 0 1 true] [EncodedPacket.mk [2] 0 0 1 true])
      [EncodedPacket.mk [3] 1 1 1 true]).1.isSome = true := by
    rw [h]
    exact ⟨EncodedPacket.mk [3] 1 1 1 true, [], rfl, rfl, by decide⟩
  obtain ⟨seg, hseg⟩ := Option.isSome_iff_exists.mp hsome
  have hch := (C5_push_video_boundary
    (EncoderAccum.mk [EncodedPacket.mk [1] 0 0 1 true] [EncodedPacket.mk [2] 0 0 1 true])
    [EncodedPacket.mk [3] 1 1 1 true]).2.1 seg hseg
  rw [hseg]
  obtain ⟨h1, h2, -, -, -⟩ := hch
  rw [show seg = (seg.1, seg.2) from rfl, h1, h2]

-- ════════════════════════════════════════════════════════════════════════════
-- § flush.rs — PTS origins and packet timestamp rewriting
-- ════════════════════════════════════════════════════════════════════════════

/-- `video_pts_origin` from `imp::mux_to_mp4`: the pts of the first video
packet across all segments in order, or 0 when there is none. -/
def video_pts_origin (segments : List EncodedSegment) : Int :=
  (((segments.flatMap (fun s => s.video_packets)).head?).map (fun p => p.pts)).getD 0

/-- `audio_pts_origin` from `imp::mux_to_mp4`: the pts of the first audio
packet across all segments in order, or 0 when there is none. -/
def audio_pts_origin (segments : List EncodedSegment) : Int :=
  (((segments.flatMap (fun s => s.audio_packets)).head?).map (fun p => p.pts)).getD 0

/-- FFmpeg's `av_rescale_rnd(a·1, b, c)` with `AV_ROUND_NEAR_INF` (round half
away from zero), the rounding `av_packet_rescale_ts` uses: `a · b / c`
computed on the absolute value with `c/2` added before dividing, the sign
restored afterwards. -/
def av_rescale_near_inf (a b c : Int) : Int :=
  let p := a * b
  Int.sign p * ((p.natAbs + c.natAbs / 2) / c.natAbs : Nat)

/-- FFmpeg's `av_rescale_q`: rescale `a` from time base `bq` to time base
`cq`, i.e. `a · (bq.num · cq.den) / (cq.num · bq.den)`. -/
def av_rescale_q (a : Int) (bq cq : Int × Int) : Int :=
  av_rescale_near_inf a (bq.1 * cq.2) (cq.1 * bq.2)

/-- The fields `imp::write_interleaved` places on the muxer packet it
submits. -/
structure MuxPacket where
  stream_index : Nat
  pts : Int
  dts : Int
  duration : Int
  is_key : Bool
  deriving DecidableEq, Repr

/-- `imp::write_interleaved` for one packet: subtract `pts_origin` from `pts`
and `dts`, set the duration, key flag and stream index, then rescale all
timestamps from the input time base to the muxer stream time base
(`av_packet_rescale_ts`). -/
def write_interleaved_packet (pkt : EncodedPacket) (stream_index : Nat)
    (in_tb out_tb : Int × Int) (pts_origin : Int) : MuxPacket :=
  { stream_index := stream_index
    pts := av_rescale_q (pkt.pts - pts_origin) in_tb out_tb
    dts := av_rescale_q (pkt.dts - pts_origin) in_tb out_tb
    duration := av_rescale_q pkt.duration in_tb out_tb
    is_key := pkt.is_key }

/-- The packet-write loop of `imp::mux_to_mp4`: for each segment in order,
first the segment's video packets (stream 0, video origin and time bases),
then its audio packets (stream 1, audio origin and time bases). -/
def mux_write_sequence (segments : List EncodedSegment)
    (vtb_in vtb_out atb_in atb_out : Int × Int) : List MuxPacket :=
  segments.flatMap (fun s =>
    s.video_packets.map
      (fun p => write_interleaved_packet p 0 vtb_in vtb_out (video_pts_origin segments))
    ++ s.audio_packets.map
      (fun p => write_interleaved_packet p 1 atb_in atb_out (audio_pts_origin segments)))

/-- Restricting the interleaved write sequence to one stream selects exactly
that stream's packets in segment order (with fixed origins `ov`, `oa`). -/
theorem mux_filter_stream0 (segs : List EncodedSegment)
    (v1 v2 a1 a2 : Int × Int) (ov oa : Int) :
    ((segs.flatMap (fun s =>
        s.video_packets.map (fun p => write_interleaved_packet p 0 v1 v2 ov)
        ++ s.audio_packets.map (fun p => write_interleaved_packet p 1 a1 a2 oa))).filter
      (fun mp => mp.stream_index == 0))
    = (segs.flatMap (fun s => s.video_packets)).map
        (fun p => write_interleaved_packet p 0 v1 v2 ov) := by
  induction segs with
  | nil => rfl
  | cons s t ih =>
    rw [List.flatMap_cons, List.flatMap_cons, List.filter_append, ih, List.map_append]
    congr 1
    have hv : (s.video_packets.map (fun p => write_interleaved_packet p 0 v1 v2 ov)).filter
        (fun mp => mp.stream_index == 0)
        = s.video_packets.map (fun p => write_interleaved_packet p 0 v1 v2 ov) := by
      apply List.filter_eq_self.mpr
      intro mp hmp
      obtain ⟨p, -, rfl⟩ := List.mem_map.mp hmp
      rfl
    have ha : (s.audio_packets.map (fun p => write_interleaved_packet p 1 a1 a2 oa)).filter
        (fun mp => mp.stream_index == 0) = [] := by
      apply List.filter_eq_nil_iff.mpr
      intro mp hmp
      obtain ⟨p, -, rfl⟩ := List.mem_map.mp hmp
      simp [write_interleaved_packet]
    rw [List.filter_append, hv, ha, List.append_nil]

/-- Same restriction for the audio stream. -/
theorem mux_filter_stream1 (segs : List EncodedSegment)
    (v1 v2 a1 a2 : Int × Int) (ov oa : Int) :
    ((segs.flatMap (fun s =>
        s.video_packets.map (fun p => write_interleaved_packet p 0 v1 v2 ov)
        ++ s.audio_packets.map (fun p => write_interleaved_packet p 1 a1 a2 oa))).filter
      (fun mp => mp.stream_index == 1))
    = (segs.flatMap (fun s => s.audio_packets)).map
        (fun p => write_interleaved_packet p 1 a1 a2 oa) := by
  induction segs with
  | nil => rfl
  | cons s t ih =>
    rw [List.flatMap_cons, List.flatMap_cons, List.filter_append, ih, List.map_append]
    congr 1
    have hv : (s.video_packets.map (fun p => write_interleaved_packet p 0 v1 v2 ov)).filter
        (fun mp => mp.stream_index == 1) = [] := by
      apply List.filter_eq_nil_iff.mpr
      intro mp hmp
      obtain ⟨p, -, rfl⟩ := List.mem_map.mp hmp
      simp [write_interleaved_packet]
    have ha : (s.audio_packets.map (fun p => write_interleaved_packet p 1 a1 a2 oa)).filter
        (fun mp => mp.stream_index == 1)
        = s.audio_packets.map (fun p => write_interleaved_packet p 1 a1 a2 oa) := by
      apply List.filter_eq_self.mpr
      intro mp hmp
      obtain ⟨p, -, rfl⟩ := List.mem_map.mp hmp
      rfl
    rw [List.filter_append, hv, ha, List.nil_append]

/-- Rescaling 0 yields 0 in every pair of time bases. -/
theorem av_rescale_q_zero (bq cq : Int × Int) : av_rescale_q 0 bq cq = 0 := by
  simp [av_rescale_q, av_rescale_near_inf]

-- ════════════════════════════════════════════════════════════════════════════
-- § Claim C7 — PTS origins and zero-based output timestamps
-- ════════════════════════════════════════════════════════════════════════════

/-- Claim C7: for a snapshot being muxed, the video pts origin is the pts of
the first video packet across all segments in order and the audio pts origin
is the pts of the first audio packet; each origin is subtracted from its own
stream's timestamps before rescaling, so the first video packet written to
the output (stream 0 of the interleaved write sequence) has presentation
time 0, and likewise the first audio packet (stream 1). -/
theorem C7_pts_zeroing :
    (∀ (segments : List EncodedSegment) (p : EncodedPacket),
        (segments.flatMap (fun s => s.video_packets)).head? = some p →
        video_pts_origin segments = p.pts)
    ∧ (∀ (segments : List EncodedSegment) (p : EncodedPacket),
        (segments.flatMap (fun s => s.audio_packets)).head? = some p →
        audio_pts_origin segments = p.pts)
    ∧ (∀ (segments : List EncodedSegment) (v1 v2 a1 a2 : Int × Int),
        segments.flatMap (fun s => s.video_packets) ≠ [] →
        ((mux_write_sequence segments v1 v2 a1 a2).filter
            (fun mp => mp.stream_index == 0)).head?.map MuxPacket.pts = some 0)
    ∧ (∀ (segments : List EncodedSegment) (v1 v2 a1 a2 : Int × Int),
        segments.flatMap (fun s => s.audio_packets) ≠ [] →
        ((mux_write_sequence segments v1 v2 a1 a2).filter
            (fun mp => mp.stream_index == 1)).head?.map MuxPacket.pts = some 0) := by
  refine ⟨?_, ?_, ?_, ?_⟩
  · intro segments p h
    rw [video_pts_origin, h]
    rfl
  · intro segments p h
    rw [audio_pts_origin, h]
    rfl
  · intro segments v1 v2 a1 a2 hne
    obtain ⟨p, l, heq⟩ := List.exists_cons_of_ne_nil hne
    have horig : video_pts_origin segments = p.pts := by
      rw [video_pts_origin, heq]
      rfl
    rw [mux_write_sequence, mux_filter_stream0, heq, List.map_cons, List.head?_cons]
    simp only [Option.map_some', write_interleaved_packet, horig, sub_self,
      av_rescale_q_zero]
  · intro segments v1 v2 a1 a2 hne
    obtain ⟨p, l, heq⟩ := List.exists_cons_of_ne_nil hne
    have horig : audio_pts_origin segments = p.pts := by
      rw [audio_pts_origin, heq]
      rfl
    rw [mux_write_sequence, mux_filter_stream1, heq, List.map_cons, List.head?_cons]
    simp only [Option.map_some', write_interleaved_packet, horig, sub_self,
      av_rescale_q_zero]

/-- Claim C7 witness: the origin equalities and zero-based first timestamps
evaluated on a concrete one-segment snapshot whose first video packet has
pts 100 and whose first audio packet has pts 50. -/
theorem C7_pts_zeroing_witness :
    video_pts_origin
        [EncodedSegment.mk 0 [EncodedPacket.mk [0] 100 100 1 true]
          [EncodedPacket.mk [1] 50 50 1 false] (1, 60) (1, 48000)] = 100
    ∧ audio_pts_origin
        [EncodedSegment.mk 0 [EncodedPacket.mk [0] 100 100 1 true]
          [EncodedPacket.mk [1] 50 50 1 false] (1, 60) (1, 48000)] = 50
    ∧ ((mux_write_sequence
          [EncodedSegment.mk 0 [EncodedPacket.mk [0] 100 100 1 true]
            [EncodedPacket.mk [1] 50 50 1 false] (1, 60) (1, 48000)]
          (1, 60) (1, 15360) (1, 48000) (1, 48000)).filter
        (fun mp => mp.stream_index == 0)).head?.map MuxPacket.pts = some 0
    ∧ ((mux_write_sequence
          [EncodedSegment.mk 0 [EncodedPacket.mk [0] 100 100 1 true]
            [EncodedPacket.mk [1] 50 50 1 false] (1, 60) (1, 48000)]
          (1, 60) (1, 15360) (1, 48000) (1, 48000)).filter
        (fun mp => mp.stream_index == 1)).head?.map MuxPacket.pts = some 0 := by
  refine ⟨?_, ?_, ?_, ?_⟩
  · exact C7_pts_zeroing.1 _ (EncodedPacket.mk [0] 100 100 1 true) rfl
  · exact C7_pts_zeroing.2.1 _ (EncodedPacket.mk [1] 50 50 1 false) rfl
  · exact C7_pts_zeroing.2.2.1 _ (1, 60) (1, 15360) (1, 48000) (1, 48000) (by decide)
  · exact C7_pts_zeroing.2.2.2 _ (1, 60) (1, 15360) (1, 48000) (1, 48000) (by decide)

-- ════════════════════════════════════════════════════════════════════════════
-- § status.rs / main.rs — daemon status and event-loop handlers
-- ════════════════════════════════════════════════════════════════════════════

/-- `DaemonState` from status.rs (serialised lowercase). -/
inductive DaemonState where
  | idle
  | recording
  | flushing
  deriving DecidableEq, Repr

/-- `DaemonStatus` from status.rs.  The constant `version` field is omitted;
all other fields are modelled (strings as `List Char`). -/
structure DaemonStatus where
  state : DaemonState
  active_application : Option (List Char)
  last_clip_path : Option (List Char)
  last_clip_timestamp : Option (List Char)
  error : Option (List Char)
  deriving DecidableEq, Repr

/-- The event-loop state of `main`: the in-memory `current_status`, whether
`active_pipeline` is `Some`, and the shared ring buffer. -/
structure MainState where
  status : DaemonStatus
  pipelineActive : Bool
  ring : RingBuffer
  deriving DecidableEq, Repr

/-- The `bail!` message of `flush_to_disk` when the snapshot has no
segments. -/
def emptyRingMsg : List Char := "Ring buffer is empty — nothing to save".toList

/-- The `format!("Flush failed: {e}")` string `main` stores in
`current_status.error` when a flush returns an error `e`. -/
def flushFailedMsg (e : List Char) : List Char := "Flush failed: ".toList ++ e

/-- Substring test (Rust `str::contains`): some contiguous run of `s` equals
`pat`. -/
def listContains (s pat : List Char) : Bool :=
  match s with
  | [] => pat.isEmpty
  | c :: t => pat.isPrefixOf (c :: t) || listContains t pat

/-- The `DaemonEvent::ProcessStarted(app)` arm of the event loop: stop any
active pipeline, set status to recording with the app's display name and a
cleared error, write the status once, then clear the ring, resize it to the
app's effective buffer length, and start a new pipeline.  Returns the new
loop state and the list of status-file writes performed. -/
def handleProcessStarted (st : MainState) (app : ApplicationConfig)
    (g : GlobalConfig) : MainState × List DaemonStatus :=
  let status1 : DaemonStatus :=
    { st.status with
        state := DaemonState.recording
        active_application := some app.display_name
        error := none }
  let ring1 := (st.ring.clear).resize (app.effective_buffer_length g)
  ({ status := status1, pipelineActive := true, ring := ring1 }, [status1])

/-- The `DaemonEvent::ProcessStopped` arm: stop the pipeline, set status to
idle with no active application (the `error` field is left as it was), and
write the status once.  The ring is not cleared. -/
def handleProcessStopped (st : MainState) : MainState × List DaemonStatus :=
  let status1 : DaemonStatus :=
    { st.status with
        state := DaemonState.idle
        active_application := none }
  ({ status := status1, pipelineActive := false, ring := st.ring }, [status1])

/-- The `DaemonEvent::FlushRequested` arm.  `flushResult` stands for the
outcome of `flush_to_disk` on a non-empty snapshot (`Except.ok path` or
`Except.error message`); on an empty snapshot `flush_to_disk`
deterministically fails with [`emptyRingMsg`] before creating any file or
directory.  `now` is the RFC 3339 timestamp taken on success.  Returns the
new loop state, the status-file writes performed (in order), and whether
the flush reached the point of creating the output directory and file.
Guards, in code order: no active pipeline → silent no-op; no
`active_application` in the status → skip; codec params unavailable in the
snapshot → skip; only then is status `flushing` written, the flush run, and
a final status (back in `recording` state) written. -/
def handleFlushRequested (st : MainState)
    (flushResult : Except (List Char) (List Char)) (now : List Char) :
    MainState × List DaemonStatus × Bool :=
  if st.pipelineActive = false then (st, [], false)
  else
    match st.status.active_application with
    | none => (st, [], false)
    | some _ =>
      match st.ring.video_params, st.ring.audio_params with
      | some _, some _ =>
        let status1 : DaemonStatus := { st.status with state := DaemonState.flushing }
        let res : Except (List Char) (List Char) :=
          if st.ring.segments.isEmpty then Except.error emptyRingMsg else flushResult
        let status2 : DaemonStatus :=
          match res with
          | Except.ok path =>
            { status1 with
                last_clip_path := some path
                last_clip_timestamp := some now
                error := none }
          | Except.error e =>
            { status1 with error := some (flushFailedMsg e) }
        let status3 : DaemonStatus := { status2 with state := DaemonState.recording }
        ({ st with status := status3 },
         [status1, status3],
         !st.ring.segments.isEmpty)
      | _, _ => (st, [], false)

-- ════════════════════════════════════════════════════════════════════════════
-- § Claim C6 — empty-snapshot flush
-- ════════════════════════════════════════════════════════════════════════════

/-- Claim C6: handling `FlushRequested` with an active pipeline (status
display name and snapshot codec params available) but an empty ring fails
with the empty-snapshot error before any file or directory is created
(the file-activity flag is `false`), leaves an error message containing the
substring `"empty"` in the status error field, and restores the status
state to `recording`. -/
theorem C6_empty_flush (st : MainState) (fr : Except (List Char) (List Char))
    (now : List Char)
    (hp : st.pipelineActive = true)
    (ha : st.status.active_application.isSome = true)
    (hv : st.ring.video_params.isSome = true)
    (hau : st.ring.audio_params.isSome = true)
    (hemp : st.ring.segments = []) :
    (handleFlushRequested st fr now).1.status.error
      = some (flushFailedMsg emptyRingMsg)
    ∧ listContains (flushFailedMsg emptyRingMsg) "empty".toList = true
    ∧ (handleFlushRequested st fr now).1.status.state = DaemonState.recording
    ∧ (handleFlushRequested st fr now).2.2 = false := by
  obtain ⟨nm, hnm⟩ := Option.isSome_iff_exists.mp ha
  obtain ⟨v, hv'⟩ := Option.isSome_iff_exists.mp hv
  obtain ⟨a, ha'⟩ := Option.isSome_iff_exists.mp hau
  refine ⟨?_, by decide, ?_, ?_⟩ <;>
    simp [handleFlushRequested, hp, hnm, hv', ha', hemp]

/-- Claim C6 witness: the empty-flush behaviour on a concrete state — active
pipeline, codec params present, empty ring. -/
theorem C6_empty_flush_witness :
    (handleFlushRequested
        (MainState.mk
          (DaemonStatus.mk DaemonState.recording (some "Game".toList) none none none)
          true
          (RingBuffer.mk [] 15 (some (VideoCodecParams.mk [] 1920 1080 60 (1, 60)))
            (some (AudioCodecParams.mk [] 48000 2 (1, 48000)))))
        (Except.ok "unused".toList) "2025-01-01".toList).1.status.error
      = some (flushFailedMsg emptyRingMsg)
    ∧ (handleFlushRequested
        (MainState.mk
          (DaemonStatus.mk DaemonState.recording (some "Game".toList) none none none)
          true
          (RingBuffer.mk [] 15 (some (VideoCodecParams.mk [] 1920 1080 60 (1, 60)))
            (some (AudioCodecParams.mk [] 48000 2 (1, 48000)))))
        (Except.ok "unused".toList) "2025-01-01".toList).1.status.state
      = DaemonState.recording := by
  have h := C6_empty_flush
    (MainState.mk
      (DaemonStatus.mk DaemonState.recording (some "Game".toList) none none none)
      true
      (RingBuffer.mk [] 15 (some (VideoCodecParams.mk [] 1920 1080 60 (1, 60)))
        (some (AudioCodecParams.mk [] 48000 2 (1, 48000)))))
    (Except.ok "unused".toList) "2025-01-01".toList
    rfl rfl rfl rfl rfl
  exact ⟨h.1, h.2.2.1⟩

-- ════════════════════════════════════════════════════════════════════════════
-- § Claim C10 — flush skipped while codec params are unset
-- ════════════════════════════════════════════════════════════════════════════

/-- Claim C10: if `FlushRequested` is handled while a pipeline is active but
the ring's `video_params` or `audio_params` are still unset, the event loop
skips the flush entirely — the state is returned unchanged, no status write
happens, and no file activity occurs (in particular the status never enters
the flushing state). -/
theorem C10_flush_skipped_params_unset (st : MainState)
    (fr : Except (List Char) (List Char)) (now : List Char)
    (hp : st.pipelineActive = true)
    (h : st.ring.video_params = none ∨ st.ring.audio_params = none) :
    handleFlushRequested st fr now = (st, [], false) := by
  rw [handleFlushRequested, if_neg (by rw [hp]; simp)]
  cases hnm : st.status.active_application with
  | none => rfl
  | some nm =>
    rcases h with hvn | han
    · rw [hvn]
    · rw [han]
      cases st.ring.video_params <;> rfl

/-- Claim C10 witness: the skip behaviour on a concrete state with an active
pipeline and unset video params. -/
theorem C10_flush_skipped_params_unset_witness :
    handleFlushRequested
        (MainState.mk
          (DaemonStatus.mk DaemonState.recording (some "Game".toList) none none none)
          true (RingBuffer.mk [] 15 none none))
        (Except.ok "unused".toList) "2025-01-01".toList
      = (MainState.mk
          (DaemonStatus.mk DaemonState.recording (some "Game".toList) none none none)
          true (RingBuffer.mk [] 15 none none), [], false) :=
  C10_flush_skipped_params_unset
    (MainState.mk
      (DaemonStatus.mk DaemonState.recording (some "Game".toList) none none none)
      true (RingBuffer.mk [] 15 none none))
    (Except.ok "unused".toList) "2025-01-01".toList rfl (Or.inl rfl)

-- ════════════════════════════════════════════════════════════════════════════
-- § Claim C8 — the status error field across handlers
-- ════════════════════════════════════════════════════════════════════════════

/-- Claim C8, counterexample: the `ProcessStopped` handler does NOT clear the
status error field.  Handling `ProcessStopped` from a state whose error is
`Some("boom")` leaves `error = Some("boom")`, while the claim demands the
field be absent after every Process transition. -/
theorem C8_error_field_counterexample :
    (handleProcessStopped
        (MainState.mk
          (DaemonStatus.mk DaemonState.recording (some "Game".toList) none none
            (some "boom".toList))
          true (RingBuffer.new 15))).1.status.error
      = some "boom".toList := by
  rfl

/-- Claim C8 (amended): the status error field carries the last non-fatal
error message; it is cleared (set to absent) by every `ProcessStarted`
handling and by a successful flush, but the `ProcessStopped` handler leaves
it unchanged. -/
theorem C8_error_field_amended :
    (∀ (st : MainState) (app : ApplicationConfig) (g : GlobalConfig),
        (handleProcessStarted st app g).1.status.error = none)
    ∧ (∀ (st : MainState) (now path : List Char),
        st.pipelineActive = true →
        st.status.active_application.isSome = true →
        st.ring.video_params.isSome = true →
        st.ring.audio_params.isSome = true →
        st.ring.segments ≠ [] →
        (handleFlushRequested st (Except.ok path) now).1.status.error = none)
    ∧ (∀ st : MainState,
        (handleProcessStopped st).1.status.error = st.status.error) := by
  refine ⟨?_, ?_, ?_⟩
  · intro st app g
    rfl
  · intro st now path hp ha hv hau hne
    obtain ⟨nm, hnm⟩ := Option.isSome_iff_exists.mp ha
    obtain ⟨v, hv'⟩ := Option.isSome_iff_exists.mp hv
    obtain ⟨a, ha'⟩ := Option.isSome_iff_exists.mp hau
    have hie : st.ring.segments.isEmpty = false := by
      cases hs : st.ring.segments with
      | nil => exact absurd hs hne
      | cons x t => rfl
    simp [handleFlushRequested, hp, hnm, hv', ha', hie]
  · intro st
    rfl

/-- Claim C8 witness: the amended clauses at concrete states — a
`ProcessStarted` handling clears a pending error, a successful flush clears
it, and a `ProcessStopped` handling leaves a pending error in place. -/
theorem C8_error_field_witness :
    (handleProcessStarted
        (MainState.mk
          (DaemonStatus.mk DaemonState.idle none none none (some "old".toList))
          false (RingBuffer.new 15))
        (ApplicationConfig.mk "G".toList "g.exe".toList none none)
        (GlobalConfig.mk 15 "F8".toList [])).1.status.error = none
    ∧ (handleFlushRequested
        (MainState.mk
          (DaemonStatus.mk DaemonState.recording (some "G".toList) none none
            (some "old".toList))
          true
          (RingBuffer.mk [mkSeg 0] 15 (some (VideoCodecParams.mk [] 1920 1080 60 (1, 60)))
            (some (AudioCodecParams.mk [] 48000 2 (1, 48000)))))
        (Except.ok "clip.mp4".toList) "2025-01-01".toList).1.status.error = none
    ∧ (handleProcessStopped
        (MainState.mk
          (DaemonStatus.mk DaemonState.recording (some "G".toList) none none
            (some "old".toList))
          true (RingBuffer.new 15))).1.status.error
      = (DaemonStatus.mk DaemonState.recording (some "G".toList) none none
          (some "old".toList)).error := by
  refine ⟨?_, ?_, ?_⟩
  · exact C8_error_field_amended.1
      (MainState.mk
        (DaemonStatus.mk DaemonState.idle none none none (some "old".toList))
        false (RingBuffer.new 15))
      (ApplicationConfig.mk "G".toList "g.exe".toList none none)
      (GlobalConfig.mk 15 "F8".toList [])
  · exact C8_error_field_amended.2.1
      (MainState.mk
        (DaemonStatus.mk DaemonState.recording (some "G".toList) none none
          (some "old".toList))
        true
        (RingBuffer.mk [mkSeg 0] 15 (some (VideoCodecParams.mk [] 1920 1080 60 (1, 60)))
          (some (AudioCodecParams.mk [] 48000 2 (1, 48000)))))
      "2025-01-01".toList "clip.mp4".toList rfl rfl rfl rfl (by decide)
  · exact C8_error_field_amended.2.2
      (MainState.mk
        (DaemonStatus.mk DaemonState.recording (some "G".toList) none none
          (some "old".toList))
        true (RingBuffer.new 15))
